import Mathlib

/- Shallow embedding of the pflow metamodel core (src/vasm.rs, src/petri_net.rs):
the compiled vectorized state machine, its firing engine, and the compiler
`StateMachine::from_model`. Hash maps are modelled as association lists
(`alist_find` / `alist_insert`); machine integers (`i32`) as `Int`; Rust panics
as `Option`/`Except` failures. -/

namespace Pflow

/-- Model type tag of a state machine: `petriNet`, `elementary`, or `workflow`. -/
inductive ModelType where
  | PetriNet
  | Elementary
  | Workflow
deriving DecidableEq, Repr

/-- Guard attached to a transition: a delta vector plus a read flag (source `Guard`). -/
structure Guard where
  delta : List Int
  read : Bool
deriving DecidableEq, Repr

/-- Transition of the compiled machine (source `vasm::Transition`). -/
structure Transition where
  label : String
  role : String
  delta : List Int
  guards : List (String × Guard)
  allow_reentry : Bool
  offset : Int
deriving DecidableEq, Repr

/-- Compiled vectorized state machine (source `vasm::StateMachine`). -/
structure StateMachine where
  model_type : ModelType
  initial : List Int
  capacity : List Int
  places : List String
  transitions : List (String × Transition)
  roles : List (String × Bool)
  actions : List String
deriving DecidableEq, Repr

/-- Result of one firing attempt (source `Transaction`). -/
structure Transaction where
  ok : Bool
  output : List Int
  role : String
  inhibited : Bool
  overflow : Bool
  underflow : Bool
deriving DecidableEq, Repr

/-- Lookup in an association list, mirroring `HashMap::get`. -/
def alist_find {α : Type} (k : String) : List (String × α) → Option α
  | [] => none
  | (k2, v) :: rest => if k2 = k then some v else alist_find k rest

/-- Insert into an association list, mirroring `HashMap::insert` (replaces the
existing entry for the key, if any). -/
def alist_insert {α : Type} (k : String) (v : α) : List (String × α) → List (String × α)
  | [] => [(k, v)]
  | (k2, v2) :: rest => if k2 = k then (k, v) :: rest else (k2, v2) :: alist_insert k v rest

/-- Loop of `vector_add`: walks the state vector pushing `state[i] + delta[i]*multiple`,
flagging underflow for a negative slot and, otherwise, overflow for a slot exceeding a
positive capacity; `none` models the index panic when `capacity[i]` is read out of
range (the read happens only on the non-negative branch, as in the source).
Result tuple order follows the source: (output, ok, overflow, underflow). -/
def vaLoop (multiple : Int) : List Int → List Int → List Int → Option (List Int × Bool × Bool × Bool)
  | [], _, _ => some ([], true, false, false)
  | s :: ss, caps, ds =>
    if s + ds.headD 0 * multiple < 0 then
      match vaLoop multiple ss caps.tail ds.tail with
      | none => none
      | some (outs, _, ov, _) => some ((s + ds.headD 0 * multiple) :: outs, false, ov, true)
    else
      match caps with
      | [] => none
      | c :: cs =>
        if 0 < c ∧ c - (s + ds.headD 0 * multiple) < 0 then
          match vaLoop multiple ss cs ds.tail with
          | none => none
          | some (outs, _, _, uf) => some ((s + ds.headD 0 * multiple) :: outs, false, true, uf)
        else
          match vaLoop multiple ss cs ds.tail with
          | none => none
          | some (outs, ok, ov, uf) => some ((s + ds.headD 0 * multiple) :: outs, ok, ov, uf)

/-- Source `vector_add(capacity, state, delta, multiple)`. -/
def vector_add (capacity state delta : List Int) (multiple : Int) :
    Option (List Int × Bool × Bool × Bool) :=
  vaLoop multiple state capacity delta

/-- Loop of `guard_fails` over the transition's guards (map iteration taken in list
order; the short-circuit `return true` of the source is preserved). -/
def guardLoop (capacity state : List Int) (multiple : Int) :
    List (String × Guard) → Option Bool
  | [] => some false
  | (_, g) :: rest =>
    match vector_add capacity state g.delta multiple with
    | none => none
    | some (_, threshold_met, _, _) =>
      if g.read then
        if threshold_met then guardLoop capacity state multiple rest else some true
      else
        if threshold_met then some true else guardLoop capacity state multiple rest

/-- Source `StateMachine::guard_fails`. -/
def guard_fails (sm : StateMachine) (state : List Int) (t : Transition) (multiple : Int) :
    Option Bool :=
  guardLoop sm.capacity state multiple t.guards

/-- Count of strictly positive slots: `output.iter().filter(|&x| *x > 0).count()`. -/
def posCount (l : List Int) : Nat := l.countP (fun x => decide (0 < x))

/-- Source `StateMachine::petri_net_fire`. -/
def petri_net_fire (sm : StateMachine) (state : List Int) (t : Transition) (multiple : Int) :
    Option Transaction :=
  match vector_add sm.capacity state t.delta multiple with
  | none => none
  | some (output, ok, overflow, underflow) =>
    match guard_fails sm state t multiple with
    | none => none
    | some inhibited =>
      some { ok := ok && !inhibited, output := output, role := t.role,
             inhibited := inhibited, overflow := overflow, underflow := underflow }

/-- Source `StateMachine::elementary_fire`. -/
def elementary_fire (sm : StateMachine) (state : List Int) (t : Transition) (multiple : Int) :
    Option Transaction :=
  match vector_add sm.capacity state t.delta multiple with
  | none => none
  | some (output, ok, overflow, underflow) =>
    match guard_fails sm state t multiple with
    | none => none
    | some inhibited =>
      some { ok := ok && (posCount output == 1) && !inhibited, output := output,
             role := t.role, inhibited := inhibited, overflow := overflow,
             underflow := underflow }

/-- Clamp of the workflow output: a slot holding 0 or -1 becomes 0, anything else 1. -/
def wfClamp (l : List Int) : List Int :=
  l.map (fun x => if x = 0 ∨ x = -1 then 0 else 1)

/-- Source `StateMachine::workflow_fire`. -/
def workflow_fire (sm : StateMachine) (state : List Int) (t : Transition) (multiple : Int) :
    Option Transaction :=
  match vector_add sm.capacity state t.delta multiple with
  | none => none
  | some (output, _, overflow, underflow) =>
    match guard_fails sm state t multiple with
    | none => none
    | some inhibited =>
      let workflow_output := wfClamp output
      let output_state_count := posCount workflow_output
      if !inhibited && overflow && (output_state_count == 1) && t.allow_reentry then
        some { ok := true, output := workflow_output, role := t.role,
               inhibited := inhibited, overflow := false, underflow := underflow }
      else
        some { ok := (output_state_count == 1) && !inhibited, output := workflow_output,
               role := t.role, inhibited := inhibited, overflow := overflow,
               underflow := underflow }

/-- Failure modes of `transform`: `unknownAction` models the "no transition for action"
panic; `outOfRange` models an index panic inside the firing computation. -/
inductive TErr where
  | unknownAction
  | outOfRange
deriving DecidableEq, Repr

/-- Source `StateMachine::transform` (the `Vasm` impl): look the action up in the
transition map, then dispatch on the model type. -/
def transform (sm : StateMachine) (state : List Int) (action : String) (multiple : Int) :
    Except TErr Transaction :=
  match alist_find action sm.transitions with
  | none => Except.error TErr.unknownAction
  | some t =>
    match (match sm.model_type with
           | ModelType.Elementary => elementary_fire sm state t multiple
           | ModelType.Workflow => workflow_fire sm state t multiple
           | ModelType.PetriNet => petri_net_fire sm state t multiple) with
    | none => Except.error TErr.outOfRange
    | some txn => Except.ok txn

/-- Graph place (source `petri_net::Place`; the display coordinates are omitted,
they never reach compilation). -/
structure Place where
  offset : Int
  initial : Option Int
  capacity : Option Int
deriving DecidableEq, Repr

/-- Graph transition (source `petri_net::Transition`). -/
structure NetTransition where
  role : Option String
  offset : Int
deriving DecidableEq, Repr

/-- Graph arc (source `petri_net::Arrow`). -/
structure Arrow where
  source : String
  target : String
  weight : Option Int
  consume : Option Bool
  produce : Option Bool
  inhibit : Option Bool
  read : Option Bool
deriving DecidableEq, Repr

/-- Declarative graph (source `petri_net::PetriNet`); hash maps as association lists. -/
structure PetriNet where
  model_type : String
  places : List (String × Place)
  transitions : List (String × NetTransition)
  arcs : List Arrow
deriving DecidableEq, Repr

/-- Attribute inference for one arc (body of `PetriNet::populate_arc_attributes`):
only unset attributes are filled in, from the endpoint kinds. -/
def populate_arc (net : PetriNet) (arc : Arrow) : Arrow :=
  let arc1 := match arc.consume with
    | none => { arc with consume := some (alist_find arc.source net.places).isSome }
    | some _ => arc
  let arc2 := match arc1.produce with
    | none => { arc1 with produce := some (alist_find arc1.source net.transitions).isSome }
    | some _ => arc1
  match arc2.read with
  | none => { arc2 with
      read := some ((alist_find arc2.source net.transitions).isSome && arc2.inhibit.getD false) }
  | some _ => arc2

/-- Source `PetriNet::populate_arc_attributes`. -/
def populate_arc_attributes (net : PetriNet) : PetriNet :=
  { net with arcs := net.arcs.map (populate_arc net) }

/-- ASCII-wise lowercasing of a string, character by character (models
`str::to_lowercase`; structural so that compilation is kernel-computable). -/
def string_to_lower (s : String) : String :=
  String.mk (s.data.map Char.toLower)

/-- Source `model_type_from_string`; `none` models the unknown-model-type panic. -/
def model_type_from_string (s : String) : Option ModelType :=
  match string_to_lower s with
  | "elementary" => some ModelType.Elementary
  | "workflow" => some ModelType.Workflow
  | "petrinet" => some ModelType.PetriNet
  | _ => none

/-- Conversion of a declared offset to a vector index: `none` models both the
`try_into` panic on a negative offset and the index panic when the offset is not
below the vector size. -/
def toOffset (off : Int) (n : Nat) : Option Nat :=
  if 0 ≤ off ∧ off.toNat < n then some off.toNat else none

/-- Per-arc compilation step of `from_model` (the body of `model.arcs.iter().for_each`):
resolve the place and transition endpoints, then install a guard (inhibit arcs) or a
delta entry (consume: `-weight`, otherwise `+weight`). -/
def apply_arc (places : List (String × Place)) (vector_size : Nat)
    (transitions : List (String × Transition)) (arc : Arrow) :
    Option (List (String × Transition)) :=
  let weight := arc.weight.getD 1
  let consume := arc.consume.getD false
  let produce := arc.produce.getD false
  let inhibit := arc.inhibit.getD false
  let read := arc.read.getD false
  match (if read || produce then alist_find arc.target places
         else alist_find arc.source places) with
  | none => none
  | some p =>
    let tKey := if read || produce then arc.source else arc.target
    match alist_find tKey transitions with
    | none => none
    | some t =>
      match toOffset p.offset vector_size with
      | none => none
      | some off =>
        let gdelta := (List.replicate vector_size (0 : Int)).set off (0 - weight)
        if inhibit then
          some (alist_insert tKey
            { t with guards := alist_insert arc.target { delta := gdelta, read := read } t.guards }
            transitions)
        else if consume then
          some (alist_insert tKey { t with delta := t.delta.set off (0 - weight) } transitions)
        else
          some (alist_insert tKey { t with delta := t.delta.set off weight } transitions)

/-- Value written into `initial[offset]` for one place: the raw count for a PetriNet,
the count clamped to 0/1 for Workflow and Elementary (`match i { 0 => 0, _ => 1 }`). -/
def ini_of (mt : ModelType) (i : Int) : Int :=
  match mt with
  | ModelType.PetriNet => i
  | ModelType.Workflow => if i = 0 then 0 else 1
  | ModelType.Elementary => if i = 0 then 0 else 1

/-- Value written into `capacity[offset]` for one place: the declared capacity
(0 when absent) for a PetriNet, always 1 for Elementary and Workflow. -/
def cap_of (mt : ModelType) (pl : Place) : Int :=
  match mt with
  | ModelType.PetriNet => pl.capacity.getD 0
  | ModelType.Elementary => 1
  | ModelType.Workflow => 1

/-- Per-place step of `from_model` building the `initial`, `capacity`, and `places`
vectors; `none` models the non-negativity assert and the offset panics. -/
def place_step (mt : ModelType) (vector_size : Nat)
    (acc : List Int × List Int × List String) (kv : String × Place) :
    Option (List Int × List Int × List String) :=
  if kv.2.initial.getD 0 < 0 then none
  else
    match toOffset kv.2.offset vector_size with
    | none => none
    | some off =>
      some (acc.1.set off (ini_of mt (kv.2.initial.getD 0)),
            acc.2.1.set off (cap_of mt kv.2), acc.2.2.set off kv.1)

/-- Stable insertion (by transition `offset`) used to model the source's stable
`sort_by_key`: an entry is placed before the first entry whose offset is not
smaller, keeping the original order of equal offsets. -/
def insort_offset (x : String × Transition) :
    List (String × Transition) → List (String × Transition)
  | [] => [x]
  | y :: ys => if y.2.offset < x.2.offset then y :: insort_offset x ys else x :: y :: ys

/-- Stable insertion sort by transition `offset` (models `sort_by_key(|v| v.offset)`). -/
def sort_by_offset : List (String × Transition) → List (String × Transition)
  | [] => []
  | x :: xs => insort_offset x (sort_by_offset xs)

/-- Source `StateMachine::from_model`; `none` models the compile-time panics. -/
def from_model (model0 : PetriNet) : Option StateMachine :=
  match model_type_from_string model0.model_type with
  | none => none
  | some model_type =>
    let model := populate_arc_attributes model0
    let roles := model.transitions.foldl
      (fun acc kv => alist_insert (kv.2.role.getD "default") true acc) []
    let vector_size := model.places.length
    let transitions0 : List (String × Transition) := model.transitions.map (fun kv =>
      (kv.1, { label := kv.1, role := kv.2.role.getD "default",
               delta := List.replicate vector_size 0, guards := [],
               allow_reentry := false, offset := kv.2.offset }))
    match model.arcs.foldlM (fun ts arc => apply_arc model.places vector_size ts arc)
        transitions0 with
    | none => none
    | some transitions =>
      match model.places.foldlM (place_step model_type vector_size)
          (List.replicate vector_size 0, List.replicate vector_size 0,
           List.replicate vector_size "") with
      | none => none
      | some (initial, capacity, places) =>
        let sorted := sort_by_offset transitions
        some { model_type := model_type, initial := initial, capacity := capacity,
               places := places, transitions := transitions, roles := roles,
               actions := sorted.map (fun kv => kv.1) }

/-- Concrete PetriNet-type machine: one place of unbounded capacity, one transition
producing 2 tokens. -/
def tC1 : Transition :=
  { label := "t", role := "default", delta := [2], guards := [], allow_reentry := false,
    offset := 0 }

/-- Machine holding `tC1`. -/
def smC1 : StateMachine :=
  { model_type := ModelType.PetriNet, initial := [0], capacity := [0], places := ["p"],
    transitions := [("t", tC1)], roles := [("default", true)], actions := ["t"] }

/-- Transaction produced by firing `tC1` from state `[1]` with multiplier 3. -/
def txnC1 : Transaction :=
  { ok := true, output := [7], role := "default", inhibited := false, overflow := false,
    underflow := false }

/-- Concrete machine whose place has capacity 1 and whose transition carries a
non-read guard of weight 1 on that place. -/
def smC2x : StateMachine :=
  { model_type := ModelType.PetriNet, initial := [0], capacity := [1], places := ["p0"],
    transitions := [("t", { label := "t", role := "default", delta := [0],
                            guards := [("t", { delta := [-1], read := false })],
                            allow_reentry := false, offset := 0 })],
    roles := [("default", true)], actions := ["t"] }

/-- Concrete machine whose place has capacity 5 and whose transition carries a
non-read guard of weight 2 on that place. -/
def smC2 : StateMachine :=
  { model_type := ModelType.PetriNet, initial := [0], capacity := [5], places := ["p"],
    transitions := [("t", { label := "t", role := "default", delta := [0],
                            guards := [("t", { delta := [-2], read := false })],
                            allow_reentry := false, offset := 0 })],
    roles := [("default", true)], actions := ["t"] }

/-- Workflow transition moving A to B with weight 2 into B (forces an overflow on
the un-clamped output). -/
def tC3 : Transition :=
  { label := "step", role := "default", delta := [-1, 2], guards := [],
    allow_reentry := false, offset := 0 }

/-- Workflow machine holding `tC3`. -/
def smC3 : StateMachine :=
  { model_type := ModelType.Workflow, initial := [1, 0], capacity := [1, 1],
    places := ["A", "B"], transitions := [("step", tC3)], roles := [("default", true)],
    actions := ["step"] }

/-- Transaction produced by firing `tC3` from state `[1, 0]` with multiplier 1:
accepted (`ok`) while `overflow` is still reported. -/
def txnC3 : Transaction :=
  { ok := true, output := [0, 1], role := "default", inhibited := false, overflow := true,
    underflow := false }

/-- Workflow transition marked `allow_reentry`, producing back into its own place. -/
def tC6 : Transition :=
  { label := "t", role := "default", delta := [1], guards := [], allow_reentry := true,
    offset := 0 }

/-- Workflow machine holding `tC6`. -/
def smC6 : StateMachine :=
  { model_type := ModelType.Workflow, initial := [1], capacity := [1], places := ["A"],
    transitions := [("t", tC6)], roles := [("default", true)], actions := ["t"] }

/-- Flow arc carrying `consume = true` and `produce = true` at once. -/
def c5bothArc : Arrow :=
  { source := "t", target := "p", weight := some 1, consume := some true,
    produce := some true, inhibit := none, read := none }

/-- Graph with a flow arc that has `consume = true` and `produce = true` at once. -/
def c5both : PetriNet :=
  { model_type := "petriNet",
    places := [("p", { offset := 0, initial := some 0, capacity := some 0 })],
    transitions := [("t", { role := some "default", offset := 0 })],
    arcs := [c5bothArc] }

/-- Zero-delta compiled transition used to exercise `apply_arc` directly. -/
def c5t0 : Transition :=
  { label := "t", role := "default", delta := [0], guards := [], allow_reentry := false,
    offset := 0 }

/-- Graph with a flow arc that has `consume = false` and `produce = false` at once. -/
def c5neither : PetriNet :=
  { model_type := "petriNet",
    places := [("p", { offset := 0, initial := some 0, capacity := some 0 })],
    transitions := [("t", { role := some "default", offset := 0 })],
    arcs := [{ source := "p", target := "t", weight := some 1, consume := some false,
               produce := some false, inhibit := none, read := none }] }

/-- Graph of a workflow model with a single place of raw initial count 5 and
declared capacity 7. -/
def c7model : PetriNet :=
  { model_type := "workflow",
    places := [("p", { offset := 0, initial := some 5, capacity := some 7 })],
    transitions := [], arcs := [] }

/-- Compiled form of `c7model`. -/
def c7sm : StateMachine :=
  { model_type := ModelType.Workflow, initial := [1], capacity := [1], places := ["p"],
    transitions := [], roles := [], actions := [] }

/-- Graph with no places and one transition; any non-empty state passed to
`transform` reads `capacity` out of range. -/
def c8model : PetriNet :=
  { model_type := "petriNet", places := [],
    transitions := [("t", { role := some "default", offset := 0 })], arcs := [] }

/-- Graph carrying two inhibitor arcs with `read = false` that end up on the same
transition under different map keys: one written transition-to-place with an
explicit `read = false`, one written place-to-transition. -/
def c9cex : PetriNet :=
  { model_type := "petriNet",
    places := [("p1", { offset := 0, initial := some 0, capacity := none }),
               ("p2", { offset := 1, initial := some 0, capacity := none })],
    transitions := [("t", { role := some "default", offset := 0 })],
    arcs := [
      { source := "t", target := "p1", weight := some 1, consume := none, produce := none,
        inhibit := some true, read := some false },
      { source := "p2", target := "t", weight := some 1, consume := none, produce := none,
        inhibit := some true, read := none } ] }

/-- Compiled transition of `c9cex`: two guards, both with `read = false`. -/
def tC9x : Transition :=
  { label := "t", role := "default", delta := [0, 0],
    guards := [("p1", { delta := [-1, 0], read := false }),
               ("t", { delta := [0, -1], read := false })],
    allow_reentry := false, offset := 0 }

/-- Compiled form of `c9cex`. -/
def c9cexSm : StateMachine :=
  { model_type := ModelType.PetriNet, initial := [0, 0], capacity := [0, 0],
    places := ["p1", "p2"], transitions := [("t", tC9x)], roles := [("default", true)],
    actions := ["t"] }

/-- Graph with two classical (place-to-transition) non-read inhibitor arcs from
distinct places into the same transition. -/
def c9amend : PetriNet :=
  { model_type := "petriNet",
    places := [("p1", { offset := 0, initial := some 0, capacity := none }),
               ("p2", { offset := 1, initial := some 0, capacity := none })],
    transitions := [("t", { role := some "default", offset := 0 })],
    arcs := [
      { source := "p1", target := "t", weight := some 1, consume := none, produce := none,
        inhibit := some true, read := none },
      { source := "p2", target := "t", weight := some 1, consume := none, produce := none,
        inhibit := some true, read := none } ] }

/-- Compiled transition of `c9amend`: only the guard of the second (last) inhibitor
arc survives. -/
def tC9a : Transition :=
  { label := "t", role := "default", delta := [0, 0],
    guards := [("t", { delta := [0, -1], read := false })],
    allow_reentry := false, offset := 0 }

/-- Compiled form of `c9amend`. -/
def c9amendSm : StateMachine :=
  { model_type := ModelType.PetriNet, initial := [0, 0], capacity := [0, 0],
    places := ["p1", "p2"], transitions := [("t", tC9a)], roles := [("default", true)],
    actions := ["t"] }

theorem headD_eq_getD (l : List Int) : l.headD 0 = l.getD 0 0 := by
  cases l <;> rfl

theorem tail_getD (l : List Int) (i : Nat) : l.tail.getD i 0 = l.getD (i + 1) 0 := by
  cases l <;> rfl

theorem exists_lt_succ_iff (n : Nat) (P : Nat → Prop) :
    (∃ i, i < n + 1 ∧ P i) ↔ P 0 ∨ ∃ j, j < n ∧ P (j + 1) := by
  constructor
  · rintro ⟨i, hi, hp⟩
    cases i with
    | zero => exact Or.inl hp
    | succ j => exact Or.inr ⟨j, by omega, hp⟩
  · rintro (h | ⟨j, hj, hp⟩)
    · exact ⟨0, by omega, h⟩
    · exact ⟨j + 1, by omega, hp⟩

theorem vaLoop_sound (m : Int) :
    ∀ (s caps ds out : List Int) (ok ov uf : Bool),
      vaLoop m s caps ds = some (out, ok, ov, uf) →
      out.length = s.length ∧
      (∀ i, i < s.length → out.getD i 0 = s.getD i 0 + ds.getD i 0 * m) ∧
      (uf = true ↔ ∃ i, i < s.length ∧ out.getD i 0 < 0) ∧
      (ov = true ↔ ∃ i, i < s.length ∧ 0 < caps.getD i 0 ∧ caps.getD i 0 < out.getD i 0) ∧
      ok = (!ov && !uf) := by
  intro s
  induction s with
  | nil =>
    intro caps ds out ok ov uf h
    simp only [vaLoop, Option.some.injEq, Prod.mk.injEq] at h
    obtain ⟨h1, h2, h3, h4⟩ := h
    subst h1; subst h2; subst h3; subst h4
    simp
  | cons x ss ih =>
    intro caps ds out ok ov uf h
    by_cases hneg : x + ds.headD 0 * m < 0
    · simp only [vaLoop, if_pos hneg] at h
      cases hrec : vaLoop m ss caps.tail ds.tail with
      | none => rw [hrec] at h; simp at h
      | some r =>
        obtain ⟨outs, ok2, ov2, uf2⟩ := r
        rw [hrec] at h
        simp only [Option.some.injEq, Prod.mk.injEq] at h
        obtain ⟨h1, h2, h3, h4⟩ := h
        subst h1; subst h2; subst h3; subst h4
        obtain ⟨ihlen, ihval, ihuf, ihov, ihok⟩ := ih caps.tail ds.tail outs ok2 ov2 uf2 hrec
        refine ⟨by simpa using ihlen, ?_, ?_, ?_, by simp⟩
        · intro i hi
          cases i with
          | zero => simp only [List.getD_cons_zero, headD_eq_getD]
          | succ j =>
            have hj : j < ss.length := by simpa using hi
            simpa [tail_getD] using ihval j hj
        · simp only [List.length_cons]
          constructor
          · intro _
            exact ⟨0, by omega, by simpa using hneg⟩
          · intro _
            trivial
        · simp only [List.length_cons]
          rw [exists_lt_succ_iff ss.length
            (fun i => 0 < caps.getD i 0 ∧ caps.getD i 0 < ((x + ds.headD 0 * m) :: outs).getD i 0)]
          rw [ihov]
          constructor
          · intro hh
            obtain ⟨j, hj, h5, h6⟩ := hh
            rw [tail_getD] at h5 h6
            exact Or.inr ⟨j, hj, h5, by simpa using h6⟩
          · rintro (⟨h5, h6⟩ | ⟨j, hj, h5, h6⟩)
            · exfalso
              simp only [List.getD_cons_zero] at h6
              linarith
            · rw [← tail_getD] at h5 h6
              simp only [List.getD_cons_succ] at h6
              exact ⟨j, hj, h5, h6⟩
    · cases caps with
      | nil =>
        simp only [vaLoop, if_neg hneg] at h
        exact Option.noConfusion h
      | cons c cs =>
        by_cases hovf : 0 < c ∧ c - (x + ds.headD 0 * m) < 0
        · simp only [vaLoop, if_neg hneg, if_pos hovf] at h
          cases hrec : vaLoop m ss cs ds.tail with
          | none => rw [hrec] at h; simp at h
          | some r =>
            obtain ⟨outs, ok2, ov2, uf2⟩ := r
            rw [hrec] at h
            simp only [Option.some.injEq, Prod.mk.injEq] at h
            obtain ⟨h1, h2, h3, h4⟩ := h
            subst h1; subst h2; subst h3; subst h4
            obtain ⟨ihlen, ihval, ihuf, ihov, ihok⟩ := ih cs ds.tail outs ok2 ov2 uf2 hrec
            obtain ⟨hg1, hg2⟩ := hovf
            refine ⟨by simpa using ihlen, ?_, ?_, ?_, by simp⟩
            · intro i hi
              cases i with
              | zero => simp only [List.getD_cons_zero, headD_eq_getD]
              | succ j =>
                have hj : j < ss.length := by simpa using hi
                simpa [tail_getD] using ihval j hj
            · simp only [List.length_cons]
              rw [exists_lt_succ_iff ss.length
                (fun i => ((x + ds.headD 0 * m) :: outs).getD i 0 < 0)]
              rw [ihuf]
              constructor
              · intro hh
                obtain ⟨j, hj, h5⟩ := hh
                exact Or.inr ⟨j, hj, by simpa using h5⟩
              · rintro (h5 | ⟨j, hj, h5⟩)
                · exfalso
                  simp only [List.getD_cons_zero] at h5
                  exact hneg h5
                · exact ⟨j, hj, by simpa using h5⟩
            · simp only [List.length_cons]
              constructor
              · intro _
                refine ⟨0, by omega, ?_, ?_⟩
                · simpa using hg1
                · simp only [List.getD_cons_zero]
                  linarith
              · intro _
                trivial
        · simp only [vaLoop, if_neg hneg, if_neg hovf] at h
          cases hrec : vaLoop m ss cs ds.tail with
          | none => rw [hrec] at h; simp at h
          | some r =>
            obtain ⟨outs, ok2, ov2, uf2⟩ := r
            rw [hrec] at h
            simp only [Option.some.injEq, Prod.mk.injEq] at h
            obtain ⟨h1, h2, h3, h4⟩ := h
            subst h1; subst h2; subst h3; subst h4
            obtain ⟨ihlen, ihval, ihuf, ihov, ihok⟩ := ih cs ds.tail outs ok2 ov2 uf2 hrec
            refine ⟨by simpa using ihlen, ?_, ?_, ?_, ihok⟩
            · intro i hi
              cases i with
              | zero => simp only [List.getD_cons_zero, headD_eq_getD]
              | succ j =>
                have hj : j < ss.length := by simpa using hi
                simpa [tail_getD] using ihval j hj
            · simp only [List.length_cons]
              rw [exists_lt_succ_iff ss.length
                (fun i => ((x + ds.headD 0 * m) :: outs).getD i 0 < 0)]
              rw [ihuf]
              constructor
              · intro hh
                obtain ⟨j, hj, h5⟩ := hh
                exact Or.inr ⟨j, hj, by simpa using h5⟩
              · rintro (h5 | ⟨j, hj, h5⟩)
                · exfalso
                  simp only [List.getD_cons_zero] at h5
                  exact hneg h5
                · exact ⟨j, hj, by simpa using h5⟩
            · simp only [List.length_cons]
              rw [exists_lt_succ_iff ss.length
                (fun i => 0 < (c :: cs).getD i 0 ∧
                  (c :: cs).getD i 0 < ((x + ds.headD 0 * m) :: outs).getD i 0)]
              rw [ihov]
              constructor
              · intro hh
                obtain ⟨j, hj, h5, h6⟩ := hh
                exact Or.inr ⟨j, hj, by simpa using h5, by simpa using h6⟩
              · rintro (⟨h5, h6⟩ | ⟨j, hj, h5, h6⟩)
                · exfalso
                  simp only [List.getD_cons_zero] at h5 h6
                  exact hovf ⟨h5, by linarith⟩
                · exact ⟨j, hj, by simpa using h5, by simpa using h6⟩

theorem vaLoop_isSome (m : Int) :
    ∀ (s caps ds : List Int), s.length ≤ caps.length →
      ∃ r, vaLoop m s caps ds = some r := by
  intro s
  induction s with
  | nil =>
    intro caps ds _
    exact ⟨([], true, false, false), rfl⟩
  | cons x ss ih =>
    intro caps ds hlen
    cases caps with
    | nil => simp at hlen
    | cons c cs =>
      have hlen2 : ss.length ≤ cs.length := by simpa using hlen
      obtain ⟨⟨outs, ok2, ov2, uf2⟩, hrec⟩ := ih cs ds.tail hlen2
      by_cases hneg : x + ds.headD 0 * m < 0
      · refine ⟨((x + ds.headD 0 * m) :: outs, false, ov2, true), ?_⟩
        simp only [vaLoop, if_pos hneg, List.tail_cons, hrec]
      · by_cases hovf : 0 < c ∧ c - (x + ds.headD 0 * m) < 0
        · refine ⟨((x + ds.headD 0 * m) :: outs, false, true, uf2), ?_⟩
          simp only [vaLoop, if_neg hneg, if_pos hovf, hrec]
        · refine ⟨((x + ds.headD 0 * m) :: outs, ok2, ov2, uf2), ?_⟩
          simp only [vaLoop, if_neg hneg, if_neg hovf, hrec]

theorem guardLoop_isSome (caps s : List Int) (m : Int) (hl : s.length ≤ caps.length) :
    ∀ gs : List (String × Guard), ∃ b, guardLoop caps s m gs = some b := by
  intro gs
  induction gs with
  | nil => exact ⟨false, rfl⟩
  | cons g rest ih =>
    obtain ⟨k, gv⟩ := g
    obtain ⟨⟨out, ok, ov, uf⟩, hva⟩ := vaLoop_isSome m s caps gv.delta hl
    obtain ⟨b, hb⟩ := ih
    refine ⟨if gv.read then (if ok then b else true) else (if ok then true else b), ?_⟩
    simp only [guardLoop, vector_add, hva]
    cases hread : gv.read <;> cases hok : ok <;> simp [hb]

theorem petri_net_fire_isSome (sm : StateMachine) (s : List Int) (t : Transition) (m : Int)
    (hl : s.length ≤ sm.capacity.length) : ∃ txn, petri_net_fire sm s t m = some txn := by
  obtain ⟨⟨out, ok, ov, uf⟩, hva⟩ := vaLoop_isSome m s sm.capacity t.delta hl
  obtain ⟨inh, hg⟩ := guardLoop_isSome sm.capacity s m hl t.guards
  refine ⟨{ ok := ok && !inh, output := out, role := t.role, inhibited := inh,
            overflow := ov, underflow := uf }, ?_⟩
  simp only [petri_net_fire, vector_add, hva, guard_fails, hg]

theorem elementary_fire_isSome (sm : StateMachine) (s : List Int) (t : Transition) (m : Int)
    (hl : s.length ≤ sm.capacity.length) : ∃ txn, elementary_fire sm s t m = some txn := by
  obtain ⟨⟨out, ok, ov, uf⟩, hva⟩ := vaLoop_isSome m s sm.capacity t.delta hl
  obtain ⟨inh, hg⟩ := guardLoop_isSome sm.capacity s m hl t.guards
  refine ⟨{ ok := ok && (posCount out == 1) && !inh, output := out, role := t.role,
            inhibited := inh, overflow := ov, underflow := uf }, ?_⟩
  simp only [elementary_fire, vector_add, hva, guard_fails, hg]

theorem workflow_fire_isSome (sm : StateMachine) (s : List Int) (t : Transition) (m : Int)
    (hl : s.length ≤ sm.capacity.length) : ∃ txn, workflow_fire sm s t m = some txn := by
  obtain ⟨⟨out, ok, ov, uf⟩, hva⟩ := vaLoop_isSome m s sm.capacity t.delta hl
  obtain ⟨inh, hg⟩ := guardLoop_isSome sm.capacity s m hl t.guards
  refine ⟨if (!inh && ov && (posCount (wfClamp out) == 1) && t.allow_reentry)
          then { ok := true, output := wfClamp out, role := t.role, inhibited := inh,
                 overflow := false, underflow := uf }
          else { ok := (posCount (wfClamp out) == 1) && !inh, output := wfClamp out,
                 role := t.role, inhibited := inh, overflow := ov, underflow := uf }, ?_⟩
  simp only [workflow_fire, vector_add, hva, guard_fails, hg]
  cases hc : (!inh && ov && (posCount (wfClamp out) == 1) && t.allow_reentry) <;> simp [hc]

theorem alist_find_mem {α : Type} {k : String} {v : α} :
    ∀ {l : List (String × α)}, alist_find k l = some v → (k, v) ∈ l := by
  intro l
  induction l with
  | nil => intro h; exact Option.noConfusion h
  | cons p rest ih =>
    intro h
    obtain ⟨k2, v2⟩ := p
    simp only [alist_find] at h
    split at h
    · rename_i heq
      injection h with hv
      subst hv
      subst heq
      exact List.mem_cons_self _ _
    · exact List.mem_cons_of_mem _ (ih h)

theorem alist_insert_mem {α : Type} {k : String} {v : α} :
    ∀ {l : List (String × α)} {q : String × α},
      q ∈ alist_insert k v l → q = (k, v) ∨ q ∈ l := by
  intro l
  induction l with
  | nil =>
    intro q h
    simp only [alist_insert, List.mem_singleton] at h
    exact Or.inl h
  | cons p rest ih =>
    intro q h
    obtain ⟨k2, v2⟩ := p
    simp only [alist_insert] at h
    split at h
    · rcases List.mem_cons.mp h with h1 | h2
      · exact Or.inl h1
      · exact Or.inr (List.mem_cons_of_mem _ h2)
    · rcases List.mem_cons.mp h with h1 | h2
      · exact Or.inr (by simp [h1])
      · rcases ih h2 with h3 | h4
        · exact Or.inl h3
        · exact Or.inr (List.mem_cons_of_mem _ h4)

theorem alist_insert_keys_sub {α : Type} {k : String} {v : α} {l : List (String × α)}
    {x : String} (h : x ∈ (alist_insert k v l).map Prod.fst) :
    x = k ∨ x ∈ l.map Prod.fst := by
  obtain ⟨q, hq, hx⟩ := List.mem_map.mp h
  rcases alist_insert_mem hq with h1 | h2
  · subst h1
    exact Or.inl hx.symm
  · exact Or.inr (List.mem_map.mpr ⟨q, h2, hx⟩)

theorem alist_insert_keys_nodup {α : Type} {k : String} {v : α} :
    ∀ {l : List (String × α)}, (l.map Prod.fst).Nodup →
      ((alist_insert k v l).map Prod.fst).Nodup := by
  intro l
  induction l with
  | nil =>
    intro _
    simp [alist_insert]
  | cons p rest ih =>
    intro hnd
    obtain ⟨k2, v2⟩ := p
    simp only [List.map_cons, List.nodup_cons] at hnd
    obtain ⟨hk2, hrest⟩ := hnd
    simp only [alist_insert]
    split
    · rename_i heq
      subst heq
      simp only [List.map_cons, List.nodup_cons]
      exact ⟨hk2, hrest⟩
    · rename_i hne
      simp only [List.map_cons, List.nodup_cons]
      refine ⟨?_, ih hrest⟩
      intro hmem
      rcases alist_insert_keys_sub hmem with h1 | h2
      · exact hne h1
      · exact hk2 h2

/-- C1: for every PetriNet-type StateMachine, state vector, action with delta vector,
and multiplier, the Transaction returned by `transform` has
`output[i] = state[i] + delta[i]*multiplier` at every index, `underflow` true iff
some output slot is negative, `overflow` true iff some slot with positive capacity
is exceeded, and `ok = !underflow && !overflow && !inhibited`. -/
theorem c1_petri_net_transform_vector_add (sm : StateMachine) (s : List Int) (a : String)
    (m : Int) (t : Transition) (txn : Transaction)
    (hmt : sm.model_type = ModelType.PetriNet)
    (hfind : alist_find a sm.transitions = some t)
    (htr : transform sm s a m = Except.ok txn) :
    txn.output.length = s.length ∧
    (∀ i, i < s.length → txn.output.getD i 0 = s.getD i 0 + t.delta.getD i 0 * m) ∧
    (txn.underflow = true ↔ ∃ i, i < s.length ∧ txn.output.getD i 0 < 0) ∧
    (txn.overflow = true ↔
      ∃ i, i < s.length ∧ 0 < sm.capacity.getD i 0 ∧
        sm.capacity.getD i 0 < txn.output.getD i 0) ∧
    txn.ok = (!txn.underflow && !txn.overflow && !txn.inhibited) := by
  simp only [transform, hfind, hmt] at htr
  cases hpf : petri_net_fire sm s t m with
  | none => rw [hpf] at htr; simp at htr
  | some txn2 =>
    rw [hpf] at htr
    simp only [Except.ok.injEq] at htr
    subst htr
    simp only [petri_net_fire] at hpf
    cases hva : vector_add sm.capacity s t.delta m with
    | none => rw [hva] at hpf; simp at hpf
    | some r =>
      obtain ⟨out, vok, ov, uf⟩ := r
      rw [hva] at hpf
      cases hgf : guard_fails sm s t m with
      | none => rw [hgf] at hpf; simp at hpf
      | some inh =>
        rw [hgf] at hpf
        simp only [Option.some.injEq] at hpf
        subst hpf
        obtain ⟨hlen, hval, hufi, hovi, hoki⟩ :=
          vaLoop_sound m s sm.capacity t.delta out vok ov uf hva
        refine ⟨hlen, hval, ?_, ?_, ?_⟩
        · simpa using hufi
        · simpa using hovi
        · subst hoki
          cases ov <;> cases uf <;> cases inh <;> rfl

/-- Witness for C1: in `smC1`, firing `t` (delta `[2]`) from `[1]` with multiplier 3
yields output `1 + 2*3 = 7` with the flag equation. -/
theorem c1_witness :
    txnC1.output.getD 0 0 = (1 : Int) + 2 * 3 ∧
    txnC1.ok = (!txnC1.underflow && !txnC1.overflow && !txnC1.inhibited) := by
  have h := c1_petri_net_transform_vector_add smC1 [1] "t" 3 tC1 txnC1 rfl rfl rfl
  exact ⟨by simpa using h.2.1 0 (by simp), h.2.2.2.2⟩

/-- C3: for every Workflow-type machine and transition not marked `allow_reentry`,
`transform` returns the clamped output, `ok = (exactly one clamped slot positive
&& !inhibited)`, and the `overflow`/`underflow` flags exactly as `vector_add`
computed them; in particular `ok` can be true while `overflow` is true. -/
theorem c3_workflow_fire_nonreentry :
    (∀ (sm : StateMachine) (s : List Int) (a : String) (m : Int) (t : Transition)
        (out : List Int) (vok ov uf inh : Bool),
      sm.model_type = ModelType.Workflow →
      alist_find a sm.transitions = some t →
      t.allow_reentry = false →
      vector_add sm.capacity s t.delta m = some (out, vok, ov, uf) →
      guard_fails sm s t m = some inh →
      transform sm s a m = Except.ok
        { ok := (posCount (wfClamp out) == 1) && !inh, output := wfClamp out,
          role := t.role, inhibited := inh, overflow := ov, underflow := uf }) ∧
    (transform smC3 [1, 0] "step" 1 = Except.ok txnC3 ∧
      txnC3.ok = true ∧ txnC3.overflow = true) := by
  constructor
  · intro sm s a m t out vok ov uf inh hmt hfind hre hva hgf
    simp only [transform, hfind, hmt, workflow_fire, hva, hgf, hre, Bool.and_false]
    simp
  · exact ⟨rfl, rfl, rfl⟩

/-- Witness for C3: firing the non-reentrant `step` of `smC3` from `[1, 0]`. -/
theorem c3_witness : transform smC3 [1, 0] "step" 1 = Except.ok txnC3 :=
  c3_workflow_fire_nonreentry.1 smC3 [1, 0] "step" 1 tC3 [0, 2] false true false false
    rfl rfl rfl rfl rfl

/-- C4: for every Elementary-type or Workflow-type machine, a Transaction returned by
`transform` with `ok = true` has exactly one strictly positive slot in its output. -/
theorem c4_single_active_place (sm : StateMachine) (s : List Int) (a : String) (m : Int)
    (txn : Transaction)
    (hmt : sm.model_type = ModelType.Elementary ∨ sm.model_type = ModelType.Workflow)
    (htr : transform sm s a m = Except.ok txn)
    (hok : txn.ok = true) :
    posCount txn.output = 1 := by
  cases hfind : alist_find a sm.transitions with
  | none =>
    simp only [transform, hfind] at htr
    exact Except.noConfusion htr
  | some t =>
    rcases hmt with hmt | hmt
    · simp only [transform, hfind, hmt] at htr
      cases hef : elementary_fire sm s t m with
      | none => rw [hef] at htr; simp at htr
      | some txn2 =>
        rw [hef] at htr
        simp only [Except.ok.injEq] at htr
        subst htr
        simp only [elementary_fire] at hef
        cases hva : vector_add sm.capacity s t.delta m with
        | none => rw [hva] at hef; simp at hef
        | some r =>
          obtain ⟨out, vok, ov, uf⟩ := r
          rw [hva] at hef
          cases hgf : guard_fails sm s t m with
          | none => rw [hgf] at hef; simp at hef
          | some inh =>
            rw [hgf] at hef
            simp only [Option.some.injEq] at hef
            subst hef
            have hok2 : (vok && (posCount out == 1) && !inh) = true := hok
            simp only [Bool.and_eq_true] at hok2
            simpa using hok2.1.2
    · simp only [transform, hfind, hmt] at htr
      cases hef : workflow_fire sm s t m with
      | none => rw [hef] at htr; simp at htr
      | some txn2 =>
        rw [hef] at htr
        simp only [Except.ok.injEq] at htr
        subst htr
        simp only [workflow_fire] at hef
        cases hva : vector_add sm.capacity s t.delta m with
        | none => rw [hva] at hef; simp at hef
        | some r =>
          obtain ⟨out, vok, ov, uf⟩ := r
          rw [hva] at hef
          cases hgf : guard_fails sm s t m with
          | none => rw [hgf] at hef; simp at hef
          | some inh =>
            rw [hgf] at hef
            have hef2 : (if (!inh && ov && (posCount (wfClamp out) == 1) && t.allow_reentry) = true
                then some { ok := true, output := wfClamp out, role := t.role,
                            inhibited := inh, overflow := false, underflow := uf }
                else some { ok := (posCount (wfClamp out) == 1) && !inh,
                            output := wfClamp out, role := t.role, inhibited := inh,
                            overflow := ov, underflow := uf }) = some txn2 := hef
            split at hef2
            · rename_i hcond
              simp only [Option.some.injEq] at hef2
              subst hef2
              simp only [Bool.and_eq_true] at hcond
              simpa using hcond.1.2
            · simp only [Option.some.injEq] at hef2
              subst hef2
              have hok2 : ((posCount (wfClamp out) == 1) && !inh) = true := hok
              simp only [Bool.and_eq_true] at hok2
              simpa using hok2.1

/-- Witness for C4: the accepted workflow firing of `smC3` has exactly one
positive output slot. -/
theorem c4_witness : posCount txnC3.output = 1 :=
  c4_single_active_place smC3 [1, 0] "step" 1 txnC3 (Or.inr rfl) rfl rfl

/-- C6: for every Workflow-type machine, if the fired transition is marked
`allow_reentry`, the un-clamped `vector_add` overflowed, the clamped output has
exactly one positive slot, and the transition is not inhibited, then `transform`
returns `ok = true` with the `overflow` flag cleared. -/
theorem c6_workflow_reentry_clears_overflow (sm : StateMachine) (s : List Int) (a : String)
    (m : Int) (t : Transition) (out : List Int) (vok uf : Bool)
    (hmt : sm.model_type = ModelType.Workflow)
    (hfind : alist_find a sm.transitions = some t)
    (hre : t.allow_reentry = true)
    (hva : vector_add sm.capacity s t.delta m = some (out, vok, true, uf))
    (hgf : guard_fails sm s t m = some false)
    (hcount : posCount (wfClamp out) = 1) :
    transform sm s a m = Except.ok
      { ok := true, output := wfClamp out, role := t.role, inhibited := false,
        overflow := false, underflow := uf } := by
  simp only [transform, hfind, hmt, workflow_fire, hva, hgf, hre, hcount]
  simp

/-- Witness for C6: firing the reentrant `t` of `smC6` from `[1]` overflows
un-clamped but is accepted with `overflow` cleared. -/
theorem c6_witness : transform smC6 [1] "t" 1 = Except.ok
    { ok := true, output := [1], role := "default", inhibited := false,
      overflow := false, underflow := false } :=
  c6_workflow_reentry_clears_overflow smC6 [1] "t" 1 tC6 [2] false false
    rfl rfl rfl rfl rfl rfl

theorem guard_va_ok (caps s gd : List Int) (p : Nat) (w : Int)
    (hp : p < s.length)
    (hgdp : gd.getD p 0 = 0 - w)
    (hgd0 : ∀ j, j ≠ p → gd.getD j 0 = 0)
    (hw : 1 ≤ w)
    (hbound : ∀ j, j < s.length → 0 ≤ s.getD j 0 ∧
      (0 < caps.getD j 0 → s.getD j 0 ≤ caps.getD j 0))
    (out : List Int) (ok ov uf : Bool)
    (hva : vaLoop 1 s caps gd = some (out, ok, ov, uf)) :
    ok = decide (w ≤ s.getD p 0) := by
  obtain ⟨hlen, hval, hufi, hovi, hoki⟩ := vaLoop_sound 1 s caps gd out ok ov uf hva
  by_cases hcase : w ≤ s.getD p 0
  · have huf : uf = false := by
      cases huf0 : uf with
      | false => rfl
      | true =>
        exfalso
        obtain ⟨i, hi, hneg⟩ := hufi.mp huf0
        have hout : out.getD i 0 = s.getD i 0 + gd.getD i 0 * 1 := hval i hi
        by_cases hip : i = p
        · subst hip
          rw [hgdp] at hout
          rw [hout] at hneg
          linarith
        · rw [hgd0 i hip] at hout
          rw [hout] at hneg
          have := (hbound i hi).1
          linarith
    have hov : ov = false := by
      cases hov0 : ov with
      | false => rfl
      | true =>
        exfalso
        obtain ⟨i, hi, hc1, hc2⟩ := hovi.mp hov0
        have hout : out.getD i 0 = s.getD i 0 + gd.getD i 0 * 1 := hval i hi
        by_cases hip : i = p
        · subst hip
          rw [hgdp] at hout
          rw [hout] at hc2
          have := (hbound i hi).2 hc1
          linarith
        · rw [hgd0 i hip] at hout
          rw [hout] at hc2
          have := (hbound i hi).2 hc1
          linarith
    rw [hoki, huf, hov]
    simp only [Bool.not_false, Bool.and_self]
    exact (decide_eq_true hcase).symm
  · have huf : uf = true := by
      apply hufi.mpr
      refine ⟨p, hp, ?_⟩
      have hout : out.getD p 0 = s.getD p 0 + gd.getD p 0 * 1 := hval p hp
      rw [hgdp] at hout
      rw [hout]
      push_neg at hcase
      linarith
    rw [hoki, huf]
    simp only [Bool.not_true, Bool.and_false]
    exact (decide_eq_false hcase).symm

/-- C2 (amended): with multiplier 1, for a transition whose only guard is a
non-read guard of weight `w ≥ 1` on place `p`, and a state that is in bounds
(every slot non-negative and within its positive capacity), the returned
Transaction's `inhibited` flag is true exactly when `state[p] ≥ w` — whatever
the transition's own delta is. (The claim's "regardless of the capacity entries"
is false: the guard's threshold check itself runs `vector_add` against the
capacities, so an out-of-bounds state flips the threshold outcome.) -/
theorem c2_amended_guard_blocking (sm : StateMachine) (s : List Int) (a : String)
    (t : Transition) (gk : String) (gd : List Int) (p : Nat) (w : Int)
    (hfind : alist_find a sm.transitions = some t)
    (hguards : t.guards = [(gk, { delta := gd, read := false })])
    (hp : p < s.length)
    (hl : s.length ≤ sm.capacity.length)
    (hgdp : gd.getD p 0 = 0 - w)
    (hgd0 : ∀ j, j ≠ p → gd.getD j 0 = 0)
    (hw : 1 ≤ w)
    (hbound : ∀ j, j < s.length → 0 ≤ s.getD j 0 ∧
      (0 < sm.capacity.getD j 0 → s.getD j 0 ≤ sm.capacity.getD j 0)) :
    (transform sm s a 1).toOption.map Transaction.inhibited =
      some (decide (w ≤ s.getD p 0)) := by
  obtain ⟨⟨gout, gok, gov, guf⟩, hgva⟩ := vaLoop_isSome 1 s sm.capacity gd hl
  have hok := guard_va_ok sm.capacity s gd p w hp hgdp hgd0 hw hbound gout gok gov guf hgva
  subst hok
  have hgf : guard_fails sm s t 1 = some (decide (w ≤ s.getD p 0)) := by
    rw [guard_fails, hguards]
    simp only [guardLoop, vector_add, hgva]
    cases hdec : decide (w ≤ s.getD p 0) <;> simp [guardLoop, hdec]
  obtain ⟨⟨out2, vok2, ov2, uf2⟩, hva2⟩ := vaLoop_isSome 1 s sm.capacity t.delta hl
  have hva2x : vector_add sm.capacity s t.delta 1 = some (out2, vok2, ov2, uf2) := hva2
  simp only [transform, hfind]
  cases hmt : sm.model_type with
  | PetriNet =>
    simp only [petri_net_fire, hva2x, hgf]
    rfl
  | Elementary =>
    simp only [elementary_fire, hva2x, hgf]
    rfl
  | Workflow =>
    simp only [workflow_fire, hva2x, hgf]
    by_cases hc : (!decide (w ≤ s.getD p 0) && ov2 &&
        (posCount (wfClamp out2) == 1) && t.allow_reentry) = true
    · rw [if_pos hc]
      rfl
    · rw [if_neg hc]
      rfl

/-- Counterexample to C2 as stated: in `smC2x` the place has capacity 1 and the
transition a non-read guard of weight 1 on it; at state `[3]` we have
`state[p] = 3 ≥ w = 1`, yet `inhibited` is false (the guard's internal
`vector_add` reports overflow, so the threshold is not met). -/
theorem c2_counterexample :
    (1 : Int) ≤ [(3 : Int)].getD 0 0 ∧
    (transform smC2x [3] "t" 1).toOption.map Transaction.inhibited = some false := by
  exact ⟨by decide, rfl⟩

/-- Witness for the amended C2: in `smC2` (capacity 5, guard weight 2), at the
in-bounds state `[3]` the transition is inhibited since `3 ≥ 2`. -/
theorem c2_witness :
    (transform smC2 [3] "t" 1).toOption.map Transaction.inhibited =
      some (decide ((2 : Int) ≤ [(3 : Int)].getD 0 0)) := by
  apply c2_amended_guard_blocking smC2 [3] "t"
      { label := "t", role := "default", delta := [0],
        guards := [("t", { delta := [-2], read := false })],
        allow_reentry := false, offset := 0 }
      "t" [-2] 0 2 rfl rfl (by decide) (by decide) (by decide)
  · intro j hj
    cases j with
    | zero => exact absurd rfl hj
    | succ n => simp [List.getD]
  · decide
  · intro j hj
    simp only [List.length_cons, List.length_nil] at hj
    have hj0 : j = 0 := by omega
    subst hj0
    refine ⟨by decide, ?_⟩
    intro _
    decide

theorem apply_arc_mem {places : List (String × Place)} {vsize : Nat}
    {ts : List (String × Transition)} {arc : Arrow} {ts2 : List (String × Transition)}
    (h : apply_arc places vsize ts arc = some ts2) :
    ∀ q ∈ ts2, q ∈ ts ∨ ∃ told : Transition, (q.1, told) ∈ ts ∧
      q.2.allow_reentry = told.allow_reentry ∧
      (q.2.guards = told.guards ∨
        ∃ gk g, q.2.guards = alist_insert gk g told.guards) := by
  intro q hq
  simp only [apply_arc] at h
  split at h
  · exact Option.noConfusion h
  next p hp =>
    split at h
    · exact Option.noConfusion h
    next t ht =>
      split at h
      · exact Option.noConfusion h
      next off hoff =>
        split at h
        · injection h with h2
          subst h2
          rcases alist_insert_mem hq with h3 | h3
          · subst h3
            exact Or.inr ⟨t, alist_find_mem ht, rfl, Or.inr ⟨arc.target, _, rfl⟩⟩
          · exact Or.inl h3
        · split at h
          · injection h with h2
            subst h2
            rcases alist_insert_mem hq with h3 | h3
            · subst h3
              exact Or.inr ⟨t, alist_find_mem ht, rfl, Or.inl rfl⟩
            · exact Or.inl h3
          · injection h with h2
            subst h2
            rcases alist_insert_mem hq with h3 | h3
            · subst h3
              exact Or.inr ⟨t, alist_find_mem ht, rfl, Or.inl rfl⟩
            · exact Or.inl h3

theorem arcs_fold_preserve {places : List (String × Place)} {vsize : Nat} :
    ∀ (arcs : List Arrow) (ts ts2 : List (String × Transition)),
      List.foldlM (fun acc arc => apply_arc places vsize acc arc) ts arcs = some ts2 →
      (∀ q ∈ ts, q.2.allow_reentry = false ∧ (q.2.guards.map Prod.fst).Nodup) →
      (∀ q ∈ ts2, q.2.allow_reentry = false ∧ (q.2.guards.map Prod.fst).Nodup) := by
  intro arcs
  induction arcs with
  | nil =>
    intro ts ts2 h hts
    have h2 : some ts = some ts2 := h
    injection h2 with h3
    subst h3
    exact hts
  | cons arc rest ih =>
    intro ts ts2 h hts
    rw [List.foldlM_cons] at h
    cases hstep : apply_arc places vsize ts arc with
    | none => rw [hstep] at h; simp at h
    | some ts1 =>
      rw [hstep] at h
      have h2 : List.foldlM (fun acc arc => apply_arc places vsize acc arc) ts1 rest
          = some ts2 := h
      refine ih ts1 ts2 h2 ?_
      intro q hq
      rcases apply_arc_mem hstep q hq with h3 | ⟨told, hmem, hre, hg⟩
      · exact hts q h3
      · obtain ⟨hre2, hnd2⟩ := hts (q.1, told) hmem
        refine ⟨by rw [hre]; exact hre2, ?_⟩
        rcases hg with hg | ⟨gk, g, hg⟩
        · rw [hg]; exact hnd2
        · rw [hg]; exact alist_insert_keys_nodup hnd2

theorem from_model_transitions_inv (model0 : PetriNet) (sm : StateMachine)
    (hsm : from_model model0 = some sm) :
    ∀ q ∈ sm.transitions, q.2.allow_reentry = false ∧ (q.2.guards.map Prod.fst).Nodup := by
  simp only [from_model] at hsm
  split at hsm
  · exact Option.noConfusion hsm
  next mt hmt =>
    split at hsm
    · exact Option.noConfusion hsm
    next ts harcs =>
      split at hsm
      · exact Option.noConfusion hsm
      next iv cv pv hfold =>
        injection hsm with hs2
        subst hs2
        intro q hq
        refine arcs_fold_preserve _ _ _ harcs ?_ q hq
        intro q2 hq2
        obtain ⟨kv, hkv, hq3⟩ := List.mem_map.mp hq2
        subst hq3
        exact ⟨rfl, by simp⟩

/-- C10: every transition compiled by `from_model` has `allow_reentry = false`, so on
a compiled Workflow machine the reentry branch never fires: the returned
Transaction's `overflow` flag is always exactly the one `vector_add` computed. -/
theorem c10_compiled_machines_never_reenter (model : PetriNet) (sm : StateMachine)
    (hsm : from_model model = some sm) :
    (∀ q ∈ sm.transitions, q.2.allow_reentry = false) ∧
    (∀ (s : List Int) (a : String) (m : Int) (t : Transition) (out : List Int)
        (vok ov uf : Bool) (txn : Transaction),
      sm.model_type = ModelType.Workflow →
      alist_find a sm.transitions = some t →
      vector_add sm.capacity s t.delta m = some (out, vok, ov, uf) →
      transform sm s a m = Except.ok txn →
      txn.overflow = ov) := by
  have hinv := from_model_transitions_inv model sm hsm
  constructor
  · intro q hq
    exact (hinv q hq).1
  · intro s a m t out vok ov uf txn hwt hfind hva htr
    have hre : t.allow_reentry = false := (hinv (a, t) (alist_find_mem hfind)).1
    simp only [transform, hfind, hwt] at htr
    cases hwf : workflow_fire sm s t m with
    | none => rw [hwf] at htr; simp at htr
    | some txn2 =>
      rw [hwf] at htr
      simp only [Except.ok.injEq] at htr
      subst htr
      simp only [workflow_fire, hva] at hwf
      cases hgf : guard_fails sm s t m with
      | none => rw [hgf] at hwf; simp at hwf
      | some inh =>
        rw [hgf] at hwf
        have hwf2 : (if (!inh && ov && (posCount (wfClamp out) == 1) && t.allow_reentry) = true
            then some { ok := true, output := wfClamp out, role := t.role,
                        inhibited := inh, overflow := false, underflow := uf }
            else some { ok := (posCount (wfClamp out) == 1) && !inh,
                        output := wfClamp out, role := t.role, inhibited := inh,
                        overflow := ov, underflow := uf }) = some txn2 := hwf
        rw [hre] at hwf2
        simp only [Bool.and_false, Bool.false_eq_true, if_false, Option.some.injEq] at hwf2
        subst hwf2
        rfl

/-- Witness for C10: the compiled machine of `c9amend` has no reentrant transition. -/
theorem c10_witness : tC9a.allow_reentry = false :=
  (c10_compiled_machines_never_reenter c9amend c9amendSm (by decide)).1 ("t", tC9a)
    (by decide)

/-- C9 (amended): in any compiled machine, each transition's guard map holds at most
one guard per key; since a classical (place-to-transition, non-read, non-produce)
inhibitor arc is always stored under the transition's own label, only the last such
arc survives compilation — demonstrated on `c9amend`, where of two inhibitor arcs
(from `p1` and from `p2`) only the second's guard remains, and a state blocked by
the first arc alone is not inhibited. -/
theorem c9_amended_last_inhibitor_wins :
    (∀ (model : PetriNet) (sm : StateMachine), from_model model = some sm →
      ∀ q ∈ sm.transitions, (q.2.guards.map Prod.fst).Nodup) ∧
    (from_model c9amend = some c9amendSm ∧
      alist_find "t" c9amendSm.transitions = some tC9a ∧
      tC9a.guards = [("t", { delta := [0, -1], read := false })] ∧
      (transform c9amendSm [5, 0] "t" 1).toOption.map Transaction.inhibited = some false) := by
  constructor
  · intro model sm hsm q hq
    exact (from_model_transitions_inv model sm hsm q hq).2
  · exact ⟨by decide, by decide, by decide, rfl⟩

/-- Counterexample to C9 as stated: compiling `c9cex` yields a transition holding
two guards with `read = false` (one keyed by the place label `p1` via a
transition-to-place inhibitor arc with explicit `read = false`, one keyed by the
transition's own label) — not "at most one non-read inhibitor guard". -/
theorem c9_counterexample :
    from_model c9cex = some c9cexSm ∧
    alist_find "t" c9cexSm.transitions = some tC9x ∧
    List.countP (fun g => !g.2.read) tC9x.guards = 2 := by
  exact ⟨by decide, by decide, by decide⟩

/-- Witness for the amended C9: the surviving guard map of `c9amend`'s transition
has no duplicate keys. -/
theorem c9_witness : (tC9a.guards.map Prod.fst).Nodup :=
  c9_amended_last_inhibitor_wins.1 c9amend c9amendSm (by decide) ("t", tC9a) (by decide)

/-- C5 (amended): compilation has no exactly-one-of check on flow arcs. For every
non-inhibit arc, `apply_arc` succeeds exactly when its endpoints resolve and the
place offset is valid — independent of the consume/produce combination; an arc
with both flags true compiles as a consume arc (`delta = -weight`), one with both
false as a produce arc (`delta = +weight`). -/
theorem c5_amended_no_invalid_arc :
    (∀ (places : List (String × Place)) (vsize : Nat) (ts : List (String × Transition))
        (arc : Arrow),
      arc.inhibit.getD false = false →
      ((apply_arc places vsize ts arc).isSome = true ↔
        ∃ p, (if (arc.read.getD false || arc.produce.getD false) = true
              then alist_find arc.target places
              else alist_find arc.source places) = some p ∧
          (alist_find (if (arc.read.getD false || arc.produce.getD false) = true
                       then arc.source else arc.target) ts).isSome = true ∧
          (toOffset p.offset vsize).isSome = true)) ∧
    ((from_model c5both).bind (fun sm => alist_find "t" sm.transitions)).map
        Transition.delta = some [-1] ∧
    ((from_model c5neither).bind (fun sm => alist_find "t" sm.transitions)).map
        Transition.delta = some [1] := by
  refine ⟨?_, by decide, by decide⟩
  intro places vsize ts arc hinh
  constructor
  · intro hsome
    obtain ⟨ts2, hts2⟩ := Option.isSome_iff_exists.mp hsome
    simp only [apply_arc] at hts2
    split at hts2
    · exact Option.noConfusion hts2
    next p hp =>
      split at hts2
      · exact Option.noConfusion hts2
      next t ht =>
        split at hts2
        · exact Option.noConfusion hts2
        next off hoff =>
          exact ⟨p, hp, by rw [ht]; rfl, by rw [hoff]; rfl⟩
  · rintro ⟨p, hp, hts, hoff⟩
    obtain ⟨t, ht⟩ := Option.isSome_iff_exists.mp hts
    obtain ⟨off, hoff2⟩ := Option.isSome_iff_exists.mp hoff
    simp only [apply_arc, hp, ht, hoff2, hinh]
    cases hc : arc.consume.getD false <;> simp [hc]

/-- Counterexample to C5 as stated: `c5both` contains a flow arc with `consume` and
`produce` both true, yet `from_model` produces a StateMachine instead of failing. -/
theorem c5_counterexample :
    (c5bothArc.inhibit.getD false = false ∧ c5bothArc.consume.getD false = true ∧
      c5bothArc.produce.getD false = true ∧ c5bothArc ∈ c5both.arcs) ∧
    (from_model c5both).isSome = true := by
  exact ⟨⟨rfl, rfl, rfl, by decide⟩, by decide⟩

/-- Witness for the amended C5: the both-flags arc of `c5both` compiles without
error against a one-place, one-transition context. -/
theorem c5_witness :
    (apply_arc c5both.places 1 [("t", c5t0)] c5bothArc).isSome = true :=
  (c5_amended_no_invalid_arc.1 c5both.places 1 [("t", c5t0)] c5bothArc rfl).mpr
    ⟨{ offset := 0, initial := some 0, capacity := some 0 }, by decide, by decide, by decide⟩

theorem getD_set_ne {α : Type} (d : α) :
    ∀ (l : List α) (i j : Nat) (a : α), i ≠ j → (l.set i a).getD j d = l.getD j d := by
  intro l
  induction l with
  | nil => intro i j a _; rfl
  | cons x xs ih =>
    intro i j a h
    cases i with
    | zero =>
      cases j with
      | zero => exact absurd rfl h
      | succ j2 => rfl
    | succ i2 =>
      cases j with
      | zero => rfl
      | succ j2 =>
        have h2 : i2 ≠ j2 := fun hh => h (by rw [hh])
        exact ih i2 j2 a h2

theorem getD_set_eq {α : Type} (d : α) :
    ∀ (l : List α) (j : Nat) (a : α), j < l.length → (l.set j a).getD j d = a := by
  intro l
  induction l with
  | nil => intro j a h; simp at h
  | cons x xs ih =>
    intro j a h
    cases j with
    | zero => rfl
    | succ j2 => exact ih j2 a (by simpa using h)

theorem toOffset_some {off : Int} {n : Nat} {j : Nat} (h : toOffset off n = some j) :
    0 ≤ off ∧ off.toNat = j ∧ j < n := by
  simp only [toOffset] at h
  split at h
  · next hc =>
    injection h with h2
    exact ⟨hc.1, h2, h2 ▸ hc.2⟩
  · exact Option.noConfusion h

theorem place_step_shape {mt : ModelType} {n : Nat} {acc : List Int × List Int × List String}
    {kv : String × Place} {acc2 : List Int × List Int × List String}
    (h : place_step mt n acc kv = some acc2) :
    ∃ off, toOffset kv.2.offset n = some off ∧ ¬ kv.2.initial.getD 0 < 0 ∧
      acc2 = (acc.1.set off (ini_of mt (kv.2.initial.getD 0)),
              acc.2.1.set off (cap_of mt kv.2), acc.2.2.set off kv.1) := by
  simp only [place_step] at h
  split at h
  · exact Option.noConfusion h
  next hneg =>
    split at h
    · exact Option.noConfusion h
    next off hoff =>
      injection h with h2
      exact ⟨off, hoff, hneg, h2.symm⟩

theorem place_fold_untouched (mt : ModelType) (n : Nat) :
    ∀ (ps : List (String × Place)) (acc acc2 : List Int × List Int × List String) (j : Nat),
      List.foldlM (place_step mt n) acc ps = some acc2 →
      (∀ kv ∈ ps, ∀ off2, toOffset kv.2.offset n = some off2 → off2 ≠ j) →
      acc2.1.getD j 0 = acc.1.getD j 0 ∧ acc2.2.1.getD j 0 = acc.2.1.getD j 0 := by
  intro ps
  induction ps with
  | nil =>
    intro acc acc2 j h _
    have h2 : some acc = some acc2 := h
    injection h2 with h3
    subst h3
    exact ⟨rfl, rfl⟩
  | cons kv0 rest ih =>
    intro acc acc2 j h havoid
    rw [List.foldlM_cons] at h
    cases hstep : place_step mt n acc kv0 with
    | none => rw [hstep] at h; simp at h
    | some acc1 =>
      rw [hstep] at h
      have h2 : List.foldlM (place_step mt n) acc1 rest = some acc2 := h
      obtain ⟨off2, hoff2, _, hacc1⟩ := place_step_shape hstep
      have havoid0 : off2 ≠ j := havoid kv0 (List.mem_cons_self _ _) off2 hoff2
      have hrest := ih acc1 acc2 j h2
        (fun kv hkv off3 hoff3 => havoid kv (List.mem_cons_of_mem _ hkv) off3 hoff3)
      subst hacc1
      constructor
      · rw [hrest.1]
        exact getD_set_ne 0 acc.1 off2 j _ havoid0
      · rw [hrest.2]
        exact getD_set_ne 0 acc.2.1 off2 j _ havoid0

theorem place_fold_getD (mt : ModelType) (n : Nat) :
    ∀ (ps : List (String × Place)) (acc acc2 : List Int × List Int × List String)
      (k : String) (pl : Place) (off : Nat),
      List.foldlM (place_step mt n) acc ps = some acc2 →
      (k, pl) ∈ ps →
      (ps.map (fun kv => kv.2.offset)).Nodup →
      toOffset pl.offset n = some off →
      acc.1.length = n → acc.2.1.length = n →
      acc2.1.getD off 0 = ini_of mt (pl.initial.getD 0) ∧
      acc2.2.1.getD off 0 = cap_of mt pl := by
  intro ps
  induction ps with
  | nil =>
    intro acc acc2 k pl off _ hmem
    exact absurd hmem (List.not_mem_nil _)
  | cons kv0 rest ih =>
    intro acc acc2 k pl off h hmem hnd hoff hlen1 hlen2
    rw [List.foldlM_cons] at h
    cases hstep : place_step mt n acc kv0 with
    | none => rw [hstep] at h; simp at h
    | some acc1 =>
      rw [hstep] at h
      have h2 : List.foldlM (place_step mt n) acc1 rest = some acc2 := h
      simp only [List.map_cons, List.nodup_cons] at hnd
      obtain ⟨hnd0, hndr⟩ := hnd
      rcases List.mem_cons.mp hmem with hkv | hkv
      · subst hkv
        obtain ⟨off2, hoff2, hneg, hacc1⟩ := place_step_shape hstep
        have hoff2x : toOffset pl.offset n = some off2 := hoff2
        rw [hoff] at hoff2x
        injection hoff2x with hoffeq
        subst hoffeq
        have hacc1x : acc1 = (acc.1.set off (ini_of mt (pl.initial.getD 0)),
            acc.2.1.set off (cap_of mt pl), acc.2.2.set off k) := hacc1
        have havoidrest : ∀ kv ∈ rest, ∀ off3,
            toOffset kv.2.offset n = some off3 → off3 ≠ off := by
          intro kv hkv2 off3 hoff3 heq
          obtain ⟨hge1, htn1, _⟩ := toOffset_some hoff3
          obtain ⟨hge2, htn2, _⟩ := toOffset_some hoff
          subst heq
          have heq2 : kv.2.offset = pl.offset := by omega
          exact hnd0 (by rw [← heq2]; exact List.mem_map.mpr ⟨kv, hkv2, rfl⟩)
        have hun := place_fold_untouched mt n rest acc1 acc2 off h2 havoidrest
        obtain ⟨hofflt1, hofflt2, hofflt3⟩ := toOffset_some hoff
        subst hacc1x
        constructor
        · rw [hun.1]
          exact getD_set_eq 0 acc.1 off _ (by rw [hlen1]; exact hofflt3)
        · rw [hun.2]
          exact getD_set_eq 0 acc.2.1 off _ (by rw [hlen2]; exact hofflt3)
      · obtain ⟨off2, hoff2, hneg, hacc1⟩ := place_step_shape hstep
        refine ih acc1 acc2 k pl off h2 hkv hndr hoff ?_ ?_
        · rw [hacc1]
          simp [hlen1]
        · rw [hacc1]
          simp [hlen2]

/-- C7: for a place with a non-negative raw initial count compiled by `from_model`
(offsets pairwise distinct), an elementary/workflow machine gets `capacity = 1` and
`initial` clamped to 0/1 at the place's offset, while a petriNet machine gets the
raw initial count and the declared capacity (0 when absent). -/
theorem c7_initial_capacity_vectors (model : PetriNet) (sm : StateMachine) (k : String)
    (pl : Place) (off : Nat)
    (hsm : from_model model = some sm)
    (hmem : (k, pl) ∈ model.places)
    (hnd : (model.places.map (fun kv => kv.2.offset)).Nodup)
    (hoff : toOffset pl.offset model.places.length = some off) :
    (sm.model_type = ModelType.PetriNet →
      sm.initial.getD off 0 = pl.initial.getD 0 ∧
      sm.capacity.getD off 0 = pl.capacity.getD 0) ∧
    (sm.model_type ≠ ModelType.PetriNet →
      sm.capacity.getD off 0 = 1 ∧
      sm.initial.getD off 0 = (if pl.initial.getD 0 = 0 then 0 else 1)) := by
  simp only [from_model] at hsm
  split at hsm
  · exact Option.noConfusion hsm
  next mt hmt =>
    split at hsm
    · exact Option.noConfusion hsm
    next ts harcs =>
      split at hsm
      · exact Option.noConfusion hsm
      next iv cv pv hfold =>
        injection hsm with hs2
        subst hs2
        have hfold2 : List.foldlM (place_step mt model.places.length)
            (List.replicate model.places.length (0 : Int),
             List.replicate model.places.length (0 : Int),
             List.replicate model.places.length "") model.places = some (iv, cv, pv) := hfold
        have hmain := place_fold_getD mt model.places.length model.places
            (List.replicate model.places.length (0 : Int),
             List.replicate model.places.length (0 : Int),
             List.replicate model.places.length "") (iv, cv, pv)
            k pl off hfold2 hmem hnd hoff (by simp) (by simp)
        constructor
        · intro hpn
          have hmt2 : mt = ModelType.PetriNet := hpn
          subst hmt2
          exact ⟨hmain.1, hmain.2⟩
        · intro hpn
          have hmt2 : mt ≠ ModelType.PetriNet := hpn
          cases mt with
          | PetriNet => exact absurd rfl hmt2
          | Elementary => exact ⟨hmain.2, hmain.1⟩
          | Workflow => exact ⟨hmain.2, hmain.1⟩

/-- Witness for C7: the workflow graph `c7model` (raw initial 5, capacity 7)
compiles to `initial = [1]`, `capacity = [1]`. -/
theorem c7_witness :
    c7sm.capacity.getD 0 0 = 1 ∧ c7sm.initial.getD 0 0 = 1 := by
  have h := c7_initial_capacity_vectors c7model c7sm "p"
      { offset := 0, initial := some 5, capacity := some 7 } 0 (by decide) (by decide)
      (by decide) (by decide)
  exact h.2 (by decide)

/-- C8 (amended): for states no longer than the capacity vector, `transform` fails
with UnknownAction exactly when the action is absent from the transition map, and
returns a Transaction for every present action. (For longer states the capacity
read panics even on a present action, refuting the unrestricted claim.) -/
theorem c8_amended_unknown_action (sm : StateMachine) (s : List Int) (a : String) (m : Int)
    (hl : s.length ≤ sm.capacity.length) :
    (transform sm s a m = Except.error TErr.unknownAction ↔
      alist_find a sm.transitions = none) ∧
    (∀ t, alist_find a sm.transitions = some t →
      ∃ txn, transform sm s a m = Except.ok txn) := by
  cases hfind : alist_find a sm.transitions with
  | none =>
    constructor
    · constructor
      · intro _
        rfl
      · intro _
        simp only [transform, hfind]
    · intro t ht
      exact Option.noConfusion ht
  | some t =>
    have hfire : ∃ txn,
        (match sm.model_type with
         | ModelType.Elementary => elementary_fire sm s t m
         | ModelType.Workflow => workflow_fire sm s t m
         | ModelType.PetriNet => petri_net_fire sm s t m) = some txn := by
      cases sm.model_type with
      | Elementary => exact elementary_fire_isSome sm s t m hl
      | Workflow => exact workflow_fire_isSome sm s t m hl
      | PetriNet => exact petri_net_fire_isSome sm s t m hl
    obtain ⟨txn, htxn⟩ := hfire
    constructor
    · constructor
      · intro htr
        exfalso
        simp only [transform, hfind, htxn] at htr
        exact Except.noConfusion htr
      · intro hnone
        exact Option.noConfusion hnone
    · intro t2 ht2
      injection ht2 with ht3
      subst ht3
      exact ⟨txn, by simp only [transform, hfind, htxn]⟩

/-- Counterexample to C8 as stated: the compiled machine of `c8model` has no places
but does have the action `t`; calling `transform` on it with the non-empty state
`[0]` fails with the modelled index panic, not with UnknownAction, even though the
action is present. -/
theorem c8_counterexample :
    ((from_model c8model).map (fun sm => (alist_find "t" sm.transitions).isSome))
      = some true ∧
    ((from_model c8model).map (fun sm => transform sm [0] "t" 1))
      = some (Except.error TErr.outOfRange) := by
  exact ⟨rfl, rfl⟩

/-- Witness for the amended C8: on `smC1`, an absent action name yields
UnknownAction. -/
theorem c8_witness : transform smC1 [0] "nope" 1 = Except.error TErr.unknownAction :=
  (c8_amended_unknown_action smC1 [0] "nope" 1 (by decide)).1.mpr (by decide)

end Pflow
